import Mathlib

/-
Verification of the transaction-monitoring core of `src/CryptoPaymentsAPI.py`.

The file shallowly embeds the Python source:
  * `convert_amount` (source lines 11-51), including the semantics of Python's
    true division of integers (rounding the exact quotient to the nearest
    IEEE-754 binary64 value, ties to even) and of fixed-point float formatting;
  * `getTonLastTransactions` (source lines 183-268), with the per-record
    parsing loop, its inner `except KeyError` handler, and the outer handlers
    that turn any other exception into an empty page;
  * `monitorTransactions` (source lines 281-341) as a fuel-indexed step
    function over poll-cycle indices, instrumented with the number of fetches
    and sleeps performed, plus the `stop_events` registry (lines 271-279).

Rational arithmetic below is written with the core `Rat` primitives (`mkRat`,
`Rat.mul`) and raw `Int`/`Nat` operations so that every definition evaluates
by kernel reduction on concrete inputs.
-/

/-- Record built for each parsed transaction by `getTonLastTransactions`
(source lines 247-256): the dict with keys address, hash, time, success,
amount and memo. -/
structure TxRecord where
  address : String
  hash : String
  time : Nat
  success : Bool
  amount : String
  memo : Option String
deriving DecidableEq

/-- Errors raised by `convert_amount`: `valueError` for an unrecognized
blockchain (source line 43), `overflowError` when Python's `amount / factor`
overflows the binary64 range (raised by `int.__truediv__`). -/
inductive ConvErr
  | valueError
  | overflowError
deriving DecidableEq

/-- Rational number `n / 1` built without going through a cast instance. -/
def natQ (n : Nat) : ℚ := mkRat (Int.ofNat n) 1

/-- Product of two rationals, computed through `mkRat` (equal to `a * b`,
proved below; written this way so that concrete instances evaluate by
reduction). -/
def qmul (a b : ℚ) : ℚ := mkRat (a.num * b.num) (a.den * b.den)

/-- Rational value of `2 ^ e` for an integer exponent `e`. -/
def qpow2 (e : ℤ) : ℚ :=
  if 0 ≤ e then natQ (2 ^ e.toNat) else mkRat 1 (2 ^ (-e).toNat)

/-- Smallest value rejected by binary64: `2 ^ 1024` (written with split
exponents so that concrete instances evaluate). -/
def maxDouble : ℚ := natQ ((2 ^ 256) ^ 4)

/-- Fueled computation of `Nat.log2`: `log2Aux fuel n` is the floor of the
base-2 logarithm of `n` whenever `fuel ≥ n ≥ 1`. -/
def log2Aux : Nat → Nat → Nat
  | 0, _ => 0
  | fuel + 1, n => if 2 ≤ n then log2Aux fuel (n / 2) + 1 else 0

/-- Floor of the base-2 logarithm of a positive natural number. -/
def log2Nat (n : Nat) : Nat := log2Aux n n

/-- Smallest `k` with `r ≤ 2 ^ k`, for `r ≥ 1` (helper for the binary64
rounding below). -/
def ceilLog2 (r : Nat) : Nat :=
  if r ≤ 1 then 0 else log2Nat (r - 1) + 1

/-- Floor of the base-2 logarithm of a positive rational. -/
def floorLog2Rat (q : ℚ) : ℤ :=
  let n := q.num.toNat
  let d := q.den
  if d ≤ n then (log2Nat (n / d) : ℤ)
  else -(ceilLog2 ((d + n - 1) / n) : ℤ)

/-- Round a rational to the nearest integer, ties to even: the rounding used
both by Python's int/int true division (to binary64) and by float fixed-point
formatting. `f` is the floor of `q` and `r2` is twice the fractional part,
scaled by the denominator, so `r2 < d` means the fractional part is below one
half. -/
def roundHalfEven (q : ℚ) : ℤ :=
  let d : ℤ := (q.den : ℤ)
  let f : ℤ := Int.ediv q.num d
  let r2 : ℤ := 2 * (q.num - f * d)
  if r2 < d then f
  else if d < r2 then f + 1
  else if f % 2 = 0 then f else f + 1

/-- Exact value of the IEEE-754 binary64 float nearest to a positive rational
(round to nearest, ties to even, 53-bit significand). The exponent is not
bounded below, which agrees with binary64 on every value of magnitude at least
2^-1022; all quotients reachable from `convert_amount` are at least 10^-18.
Values that round to 2^1024 or beyond are out of the binary64 range and are
rejected by the caller. Returns 0 on nonpositive input (never used). -/
def roundToDouble (q : ℚ) : ℚ :=
  if q ≤ 0 then 0
  else
    let e : ℤ := floorLog2Rat q - 52
    qmul (mkRat (roundHalfEven (qmul q (qpow2 (-e)))) 1) (qpow2 e)

/-- Decimal digits of `fp` left-padded with zeros to width `d`: the fractional
part of Python's fixed-point float format. -/
def padZeros (d : Nat) (fp : Nat) : List Char :=
  let s := Nat.toDigits 10 fp
  List.replicate (d - s.length) '0' ++ s

/-- Characters of the fixed-point rendering of `n / 10 ^ d` with exactly `d`
fractional digits, `n` being the value scaled by `10 ^ d`. -/
def formatFixed (n : Nat) (d : Nat) : List Char :=
  Nat.toDigits 10 (n / 10 ^ d) ++ '.' :: padZeros d (n % 10 ^ d)

/-- Python's `str.rstrip` with a single strip character. -/
def rstripChar (c : Char) (s : List Char) : List Char :=
  (s.reverse.dropWhile (fun x => x == c)).reverse

/-- The `.rstrip('0').rstrip('.')` post-processing of source line 51. -/
def stripTrailing (s : List Char) : List Char :=
  rstripChar '.' (rstripChar '0' s)

/-- Python's `str.lower()` on the identifiers involved (all ASCII). -/
def lowerStr (s : String) : String :=
  String.mk (s.data.map Char.toLower)

/-- The `decimals_map` dict of source lines 30-39. -/
def decimals_map : List (String × Nat) :=
  [("btc", 8), ("eth", 18), ("bnb", 18), ("sol", 9),
   ("ltc", 8), ("matic", 18), ("ton", 9), ("doge", 8)]

/-- Embedding of `scanAPI.convert_amount` (source lines 11-51): look the blockchain up
case-insensitively, return "0" for a zero amount, otherwise divide by
`10 ^ decimals` with Python float division (round the exact quotient to the
nearest binary64 value), format the float with exactly `decimals` fractional
digits (rounding the float's exact value half-to-even in decimal), and strip
trailing zeros and a trailing point. -/
def convert_amount (amount : Nat) (blockchain : String) : Except ConvErr String :=
  match decimals_map.lookup (lowerStr blockchain) with
  | none => .error .valueError
  | some decimals =>
    if amount = 0 then .ok "0"
    else
      let q : ℚ := mkRat (Int.ofNat amount) (10 ^ decimals)
      let v := roundToDouble q
      if maxDouble ≤ v then .error .overflowError
      else .ok (String.mk (stripTrailing
        (formatFixed (roundHalfEven (qmul v (natQ (10 ^ decimals)))).toNat decimals)))

/-- Specification-side definition, for comparison with `convert_amount`. From
the spec's words: divide by 10^decimals, write the exact value with exactly
`decimals` fractional digits, then strip trailing zero digits and a trailing
decimal point; a zero amount gives the literal zero string. -/
def specShortestExactDecimal (amount : Nat) (decimals : Nat) : String :=
  if amount = 0 then "0"
  else String.mk (stripTrailing (formatFixed amount decimals))

deriving instance DecidableEq for Except

/-- Raw `decoded` message content of a transaction's in-message: a dict that
may carry a `comment` key (source lines 242-244). An absent comment and a
comment with no usable text both leave the memo unset; Python also treats an
empty comment string as falsy, hence as no memo. -/
structure RawDecoded where
  comment : Option String
deriving DecidableEq

/-- Raw `message_content` dict of a transaction's in-message; its `decoded`
entry is read with `.get` (absent is tolerated), and Python's truthiness test
on an empty `decoded` dict coincides with an absent comment in this model. -/
structure RawMessageContent where
  decoded : Option RawDecoded
deriving DecidableEq

/-- Raw `in_msg` dict of a transaction. `value` is `some n` when the `value`
key is present and its content parses as the integer `n`; `none` models both a
missing key (`int(None)` raises `TypeError`) and unparsable content (`int`
raises `ValueError`) — neither exception is a `KeyError`, so neither is caught
by the per-record handler of source line 257. -/
structure RawInMsg where
  source : Option String
  value : Option Nat
  message_content : Option RawMessageContent
deriving DecidableEq

/-- Raw `compute_ph` dict; `success` is read with `.get('success', False)`
(source line 252). -/
structure RawComputePh where
  success : Option Bool
deriving DecidableEq

/-- Raw `description` dict of a transaction. -/
structure RawDescription where
  compute_ph : Option RawComputePh
deriving DecidableEq

/-- One raw transaction of the TONCenter response. A `none` field models a
missing key at the corresponding place. -/
structure RawTx where
  in_msg : Option RawInMsg
  hash : Option String
  now : Option Nat
  description : Option RawDescription
deriving DecidableEq

/-- Parsed body of a successful TONCenter `/api/v3/transactions` response:
the `address_book` dict (raw address to an optional `user_friendly` form) and
the `transactions` list. -/
structure RawData where
  address_book : List (String × Option String)
  transactions : List RawTx
deriving DecidableEq

/-- The three failure classes absorbed by the outer handlers of
`getTonLastTransactions` (source lines 261-266): HTTP status errors, other
aiohttp client errors, and any other error (network, JSON parsing, ...). -/
inductive FetchError
  | httpError
  | clientError
  | otherError
deriving DecidableEq

/-- The address-book construction of source lines 237-238: map each raw
address to its `user_friendly` form, defaulting to "Unknown". -/
def buildBook (ab : List (String × Option String)) : List (String × String) :=
  ab.map (fun e => (e.1, e.2.getD "Unknown"))

/-- Processing of one raw transaction by the loop body of source lines
240-258. `Except.error ()` models an exception that escapes the loop (a
`KeyError` raised by the memo extraction of lines 241-244, which sits outside
the inner `try`, or the non-`KeyError` raised for a missing/unparsable
`value` on line 253): it aborts the whole page. `Except.ok none` models a
`KeyError` raised inside the `try` and caught on line 257: the record alone is
skipped, with a log note. `Except.ok (some r)` is a parsed record. The fields
of the dict literal are evaluated in source order: address, hash, time,
success, amount, memo. -/
def processOneTx (book : List (String × String)) (trx : RawTx) :
    Except Unit (Option TxRecord) :=
  match trx.in_msg with
  | none => .error ()
  | some im =>
    match im.message_content with
    | none => .error ()
    | some mc =>
      let memo : Option String :=
        match mc.decoded with
        | some dec =>
          match dec.comment with
          | some c => if c = "" then none else some c
          | none => none
        | none => none
      let address : String :=
        match im.source with
        | some s => (book.lookup s).getD "Unknown address"
        | none => "Unknown address"
      match trx.hash with
      | none => .ok none
      | some h =>
        match trx.now with
        | none => .ok none
        | some tm =>
          match trx.description with
          | none => .ok none
          | some desc =>
            match desc.compute_ph with
            | none => .ok none
            | some cp =>
              match im.value with
              | none => .error ()
              | some v =>
                match convert_amount v "ton" with
                | .error _ => .error ()
                | .ok amountStr =>
                  .ok (some { address := address, hash := h, time := tm,
                              success := cp.success.getD false,
                              amount := amountStr, memo := memo })

/-- The transaction loop of source lines 240-258: records are appended in
order; a skipped record contributes nothing; an escaping exception aborts the
whole loop. -/
def processTransactions (book : List (String × String)) :
    List RawTx → Except Unit (List TxRecord)
  | [] => .ok []
  | trx :: rest =>
    match processOneTx book trx with
    | .error e => .error e
    | .ok none => processTransactions book rest
    | .ok (some r) =>
      match processTransactions book rest with
      | .error e => .error e
      | .ok rs => .ok (r :: rs)

/-- Embedding of `scanAPI.getTonLastTransactions` (source lines 183-268) applied to the
outcome of the HTTP fetch: a failed fetch is caught by the outer handlers and
yields the empty list (lines 261-268); a successful fetch has its page
processed, and any exception escaping the record loop is also caught by the
outer handlers, again yielding the empty list. -/
def getTonLastTransactions (fetched : Except FetchError RawData) : List TxRecord :=
  match fetched with
  | .error _ => []
  | .ok data =>
    match processTransactions (buildBook data.address_book) data.transactions with
    | .ok l => l
    | .error _ => []

/-- Terminal outcome of a `monitorTransactions` call: normal return of True or
False, or propagation of the unsupported-blockchain `ValueError` (source lines
334-337 re-raise it). -/
inductive MonOutcome
  | retTrue
  | retFalse
  | raiseUnsupported
deriving DecidableEq

/-- The match predicate of source line 329:
`trx['amount'] == amount and (memo is None or trx['memo'] == memo)`.
Amounts compare by string equality; with an expected memo, a record whose memo
is absent compares unequal, exactly like Python's `None == memo`. -/
def matchesTx (trx : TxRecord) (amount : String) (memo : Option String) : Bool :=
  trx.amount == amount &&
    (match memo with
     | none => true
     | some m => trx.memo == some m)

/-- One poll cycle per step of the loop of source lines 322-334, indexed by
the cycle number `k` (the elapsed counter `i` equals `k * checkTime`) and by
fuel. `pages k` is the transaction list the fetch of cycle `k` would deliver;
`stop k` is the value the cycle-top `is_set()` read of line 324 would see.
The result carries the outcome together with the number of fetches and of
sleeps performed; `none` means the fuel ran out with the loop still running. -/
def monRun (blockchain : String) (pages : Nat → List TxRecord) (stop : Nat → Bool)
    (amount : String) (memo : Option String) (timeInterval checkTime : ℤ) :
    Nat → Nat → Option (MonOutcome × Nat × Nat)
  | _, 0 => none
  | k, fuel + 1 =>
    if (k : ℤ) * checkTime ≤ timeInterval then
      if stop k then some (.retFalse, 0, 0)
      else if blockchain = "ton" then
        if (pages k).any (fun trx => matchesTx trx amount memo) then
          some (.retTrue, 1, 0)
        else
          (monRun blockchain pages stop amount memo timeInterval checkTime (k + 1) fuel).map
            (fun r => (r.1, r.2.1 + 1, r.2.2 + 1))
      else some (.raiseUnsupported, 0, 0)
    else some (.retFalse, 0, 0)

/-- Embedding of `CryptoPaymentsAPI.monitorTransactions` (source lines 281-341), run from
cycle 0. The `stop` argument gives the value each cycle-top `is_set()` read
would observe; the clearing of the subject's event on line 320 is reflected in
`sessionRun` below, which derives `stop` from the registry state. -/
def monitorTransactions (blockchain : String) (pages : Nat → List TxRecord)
    (stop : Nat → Bool) (amount : String) (memo : Option String)
    (timeInterval checkTime : ℤ) (fuel : Nat) : Option (MonOutcome × Nat × Nat) :=
  monRun blockchain pages stop amount memo timeInterval checkTime 0 fuel

/-- The call settles with outcome `r` (with some fuel, hence in real time). -/
def monTerminates (blockchain : String) (pages : Nat → List TxRecord)
    (stop : Nat → Bool) (amount : String) (memo : Option String)
    (timeInterval checkTime : ℤ) (r : MonOutcome) : Prop :=
  ∃ fuel n m,
    monitorTransactions blockchain pages stop amount memo timeInterval checkTime fuel
      = some (r, n, m)

/-- State of the `stop_events` registry (source line 273): a
`defaultdict(asyncio.Event)`, read as the set/unset state per subject; an
entry that was never touched reads as unset, like a freshly created Event. -/
def Registry : Type := String → Bool

/-- Embedding of `CryptoPaymentsAPI.stop_monitoring` (source lines 275-279): set the
subject's event. -/
def stop_monitoring (reg : Registry) (user : String) : Registry :=
  fun u => if u = user then true else reg u

/-- The `self.stop_events[user_id].clear()` of source line 320. -/
def clearEvent (reg : Registry) (user : String) : Registry :=
  fun u => if u = user then false else reg u

/-- Registry state visible at the top of cycle `k`: the state left at session
start, plus every external `stop_monitoring` call that was scheduled before
that cycle top (`ext k u` says whether such a call for subject `u` has
happened by cycle `k`). -/
def registryDuring (reg0 : Registry) (ext : Nat → String → Bool) (k : Nat) : Registry :=
  fun u => reg0 u || ext k u

/-- A full `monitorTransactions` call for a subject: line 320 first clears the
subject's event, then the loop reads the subject's event at each cycle top,
concurrently modifiable only by external `stop_monitoring` calls. -/
def sessionRun (reg : Registry) (user blockchain : String)
    (pages : Nat → List TxRecord) (ext : Nat → String → Bool) (amount : String)
    (memo : Option String) (timeInterval checkTime : ℤ) (fuel : Nat) :
    Option (MonOutcome × Nat × Nat) :=
  monitorTransactions blockchain pages
    (fun k => registryDuring (clearEvent reg user) ext k user)
    amount memo timeInterval checkTime fuel

/-- Transaction source of the spec's boundary scenario: two empty pages, then
a page with an amount-"10" transaction on the third poll (cycle index 2). -/
def pagesBoundary : Nat → List TxRecord := fun k =>
  if k = 2 then
    [{ address := "a", hash := "h", time := 0, success := true,
       amount := "10", memo := some "x" }]
  else []

/-- Stop signal that reads unset at cycle 0 and set from cycle 1 on. -/
def stopAfterFirst : Nat → Bool := fun j => decide (1 ≤ j)

/-- A transaction source whose fetch always fails. -/
def fetchesFail : Nat → Except FetchError RawData := fun _ => .error .clientError

/-- Transaction with a near-miss amount string "1.0". -/
def nearMissTx : TxRecord :=
  { address := "a", hash := "h", time := 0, success := true,
    amount := "1.0", memo := none }

/-- Registry in which no subject has a set stop event. -/
def regAll : Registry := fun _ => false

/-- A fully well-formed raw transaction (1 TON, memo "hello"): in_msg with
source "s", value 1000000000 and a decoded comment, hash "h1", timestamp 5,
and a successful compute phase. -/
def goodTx : RawTx :=
  ⟨some ⟨some "s", some 1000000000, some ⟨some ⟨some "hello"⟩⟩⟩,
   some "h1", some 5, some ⟨some ⟨some true⟩⟩⟩

/-- The record `goodTx` parses to. -/
def goodRecord : TxRecord :=
  { address := "Unknown address", hash := "h1", time := 5, success := true,
    amount := "1", memo := some "hello" }

/-- A raw transaction whose `hash` key is missing (a `KeyError` inside the
per-record handler), with `in_msg` and `message_content` present. -/
def missingHashTx : RawTx :=
  ⟨some ⟨some "s", some 1000000000, some ⟨none⟩⟩,
   none, some 6, some ⟨some ⟨some true⟩⟩⟩

/-- A raw transaction whose `in_msg` key is missing (a `KeyError` outside the
per-record handler). -/
def missingInMsgTx : RawTx :=
  ⟨none, some "h2", some 7, some ⟨some ⟨some true⟩⟩⟩

theorem monRun_zero (blockchain : String) (pages : Nat → List TxRecord) (stop : Nat → Bool)
    (amount : String) (memo : Option String) (t c : ℤ) (k : Nat) :
    monRun blockchain pages stop amount memo t c k 0 = none := rfl

theorem monRun_succ (blockchain : String) (pages : Nat → List TxRecord) (stop : Nat → Bool)
    (amount : String) (memo : Option String) (t c : ℤ) (k fuel : Nat) :
    monRun blockchain pages stop amount memo t c k (fuel + 1) =
      if (k : ℤ) * c ≤ t then
        if stop k then some (.retFalse, 0, 0)
        else if blockchain = "ton" then
          if (pages k).any (fun trx => matchesTx trx amount memo) then
            some (.retTrue, 1, 0)
          else
            (monRun blockchain pages stop amount memo t c (k + 1) fuel).map
              (fun r => (r.1, r.2.1 + 1, r.2.2 + 1))
        else some (.raiseUnsupported, 0, 0)
      else some (.retFalse, 0, 0) := rfl

/-- Once the loop settles with a result, more fuel gives the same result. -/
theorem monRun_mono (blockchain : String) (pages : Nat → List TxRecord) (stop : Nat → Bool)
    (amount : String) (memo : Option String) (t c : ℤ) :
    ∀ fuel fuel' k r, fuel ≤ fuel' →
      monRun blockchain pages stop amount memo t c k fuel = some r →
      monRun blockchain pages stop amount memo t c k fuel' = some r := by
  intro fuel
  induction fuel with
  | zero =>
    intro fuel' k r _ h
    simp [monRun_zero] at h
  | succ fuel ih =>
    intro fuel' k r hle h
    obtain ⟨fuel'', rfl⟩ : ∃ f, fuel' = f + 1 := ⟨fuel' - 1, by omega⟩
    rw [monRun_succ] at h ⊢
    split_ifs at h ⊢ with h1 h2 h3 h4
    · exact h
    · exact h
    · obtain ⟨r0, hr0, hgr⟩ := Option.map_eq_some'.mp h
      rw [ih fuel'' (k + 1) r0 (by omega) hr0]
      simpa using hgr
    · exact h
    · exact h

/-- The loop's settled result is unique. -/
theorem monRun_det (blockchain : String) (pages : Nat → List TxRecord) (stop : Nat → Bool)
    (amount : String) (memo : Option String) (t c : ℤ) (k : Nat) (f1 f2 : Nat)
    (a b : MonOutcome × Nat × Nat)
    (h1 : monRun blockchain pages stop amount memo t c k f1 = some a)
    (h2 : monRun blockchain pages stop amount memo t c k f2 = some b) : a = b := by
  rcases Nat.le_total f1 f2 with h | h
  · have := monRun_mono blockchain pages stop amount memo t c f1 f2 k a h h1
    rw [this] at h2
    exact Option.some.inj h2
  · have := monRun_mono blockchain pages stop amount memo t c f2 f1 k b h h2
    rw [this] at h1
    exact (Option.some.inj h1).symm

/-- With a positive poll interval and nonnegative budget, cycle `k` passes the
`i <= timeInterval` test of source line 323 exactly when `k` is at most
`timeInterval / checkTime` (floor division). -/
theorem cycle_cond_iff (t c : ℤ) (hc : 0 < c) (ht : 0 ≤ t) (k : Nat) :
    ((k : ℤ) * c ≤ t) ↔ k ≤ (t / c).toNat := by
  rw [← Int.le_ediv_iff_mul_le hc, Int.le_toNat (Int.ediv_nonneg ht hc.le)]

/-- If some cycle `j` within the budget fetches a matching page and no stop is
ever signalled, the run from any cycle at or before `j` returns True. -/
theorem monRun_reaches_true (pages : Nat → List TxRecord) (amount : String)
    (memo : Option String) (t c : ℤ) (hc : 0 ≤ c) (j : Nat)
    (hm : (pages j).any (fun trx => matchesTx trx amount memo) = true)
    (hj : (j : ℤ) * c ≤ t) :
    ∀ d k, k + d = j →
      ∃ n m, monRun "ton" pages (fun _ => false) amount memo t c k (d + 1)
        = some (.retTrue, n, m) := by
  intro d
  induction d with
  | zero =>
    intro k hk
    have hk' : k = j := by omega
    subst hk'
    rw [monRun_succ, if_pos hj, if_neg Bool.false_ne_true, if_pos rfl, if_pos hm]
    exact ⟨1, 0, rfl⟩
  | succ d ih =>
    intro k hk
    have hkc : (k : ℤ) * c ≤ t := by
      have hkj : (k : ℤ) ≤ (j : ℤ) := by exact_mod_cast Nat.le_of_lt_succ (by omega)
      exact le_trans (mul_le_mul_of_nonneg_right hkj hc) hj
    rw [monRun_succ, if_pos hkc, if_neg Bool.false_ne_true, if_pos rfl]
    by_cases hmk : (pages k).any (fun trx => matchesTx trx amount memo) = true
    · rw [if_pos hmk]
      exact ⟨1, 0, rfl⟩
    · rw [if_neg hmk]
      obtain ⟨n, m, hrec⟩ := ih (k + 1) (by omega)
      rw [hrec]
      exact ⟨n + 1, m + 1, rfl⟩

/-- If no cycle within the budget fetches a matching page and no stop is ever
signalled, the run returns False after exhausting the budget, having fetched
and slept once per executed cycle. -/
theorem monRun_reaches_false (pages : Nat → List TxRecord) (amount : String)
    (memo : Option String) (t c : ℤ) (hc : 0 < c) (ht : 0 ≤ t)
    (hno : ∀ j : Nat, (j : ℤ) * c ≤ t →
      (pages j).any (fun trx => matchesTx trx amount memo) = false) :
    ∀ d k, k + d = (t / c).toNat + 1 →
      monRun "ton" pages (fun _ => false) amount memo t c k (d + 1)
        = some (.retFalse, d, d) := by
  intro d
  induction d with
  | zero =>
    intro k hk
    have hcond : ¬ ((k : ℤ) * c ≤ t) := by
      rw [cycle_cond_iff t c hc ht]
      omega
    rw [monRun_succ, if_neg hcond]
  | succ d ih =>
    intro k hk
    have hcond : (k : ℤ) * c ≤ t := by
      rw [cycle_cond_iff t c hc ht]
      omega
    have hnm : ¬ ((pages k).any (fun trx => matchesTx trx amount memo) = true) := by
      rw [hno k hcond]
      exact Bool.false_ne_true
    rw [monRun_succ, if_pos hcond, if_neg Bool.false_ne_true, if_pos rfl, if_neg hnm,
      ih (k + 1) (by omega)]
    rfl

theorem natQ_eq (n : Nat) : natQ n = (n : ℚ) := by
  unfold natQ
  rw [Int.ofNat_eq_natCast, Rat.mkRat_eq_div]
  simp

theorem qmul_eq (a b : ℚ) : qmul a b = a * b := by
  unfold qmul
  rw [Rat.mkRat_eq_div]
  push_cast
  rw [← div_mul_div_comm, Rat.num_div_den, Rat.num_div_den]

theorem roundHalfEven_intCast (n : ℤ) : roundHalfEven (n : ℚ) = n := by
  simp only [roundHalfEven, Rat.den_intCast, Rat.num_intCast, Nat.cast_one]
  have h1 : Int.ediv n 1 = n := Int.ediv_one n
  rw [h1]
  norm_num

/-- C3 (amended): whenever the exact quotient `amount / 10 ^ decimals` is
exactly representable as a binary64 value (and below the overflow bound),
`convert_amount` returns the literal "0" for a zero amount and otherwise the
shortest exact decimal representation in the spec's sense: the value written
with exactly `decimals` fractional digits, trailing zeros then a trailing
point stripped. When the quotient is not exactly representable the result is
produced from the rounded binary64 value instead and can differ from the
exact representation. -/
theorem convert_amount_exact_on_representable (blockchain : String) (decimals : Nat)
    (amount : Nat)
    (hbc : decimals_map.lookup (lowerStr blockchain) = some decimals)
    (hrep : roundToDouble (mkRat (Int.ofNat amount) (10 ^ decimals))
      = mkRat (Int.ofNat amount) (10 ^ decimals))
    (hsmall : mkRat (Int.ofNat amount) (10 ^ decimals) < maxDouble) :
    convert_amount amount blockchain = .ok (specShortestExactDecimal amount decimals) := by
  by_cases h0 : amount = 0
  · subst h0
    simp [convert_amount, hbc, specShortestExactDecimal]
  · have hq : qmul (mkRat (Int.ofNat amount) (10 ^ decimals)) (natQ (10 ^ decimals))
        = ((amount : ℤ) : ℚ) := by
      rw [qmul_eq, natQ_eq, Int.ofNat_eq_natCast, Rat.mkRat_eq_div]
      have hne : ((10 ^ decimals : ℕ) : ℚ) ≠ 0 := by positivity
      rw [div_mul_cancel₀ _ hne]
    have hrhe : (roundHalfEven (qmul (mkRat (Int.ofNat amount) (10 ^ decimals))
        (natQ (10 ^ decimals)))).toNat = amount := by
      rw [hq, roundHalfEven_intCast, Int.toNat_natCast]
    simp only [convert_amount, hbc, if_neg h0, hrep, hrhe, if_neg (not_le.mpr hsmall),
      specShortestExactDecimal]

/-- C3 counterexample: at rawAmount `10 ^ 18 + 1` on 'eth' (18 decimals), the
float division of source line 49 rounds `1 + 10 ^ (-18)` to exactly 1, so the
code returns "1" while the shortest exact decimal representation demanded by
the claim is "1.000000000000000001". -/
theorem convert_amount_not_exact_shortest :
    convert_amount (10 ^ 18 + 1) "eth" = .ok "1" ∧
    specShortestExactDecimal (10 ^ 18 + 1) 18 = "1.000000000000000001" ∧
    convert_amount (10 ^ 18 + 1) "eth"
      ≠ .ok (specShortestExactDecimal (10 ^ 18 + 1) 18) :=
  ⟨by decide, by decide, by decide⟩

/-- Witness for `convert_amount_exact_on_representable`: 1.5 btc. -/
theorem convert_amount_exact_on_representable_witness :
    convert_amount 150000000 "btc" = .ok (specShortestExactDecimal 150000000 8) ∧
    specShortestExactDecimal 150000000 8 = "1.5" :=
  ⟨convert_amount_exact_on_representable "btc" 8 150000000 (by decide) (by decide) (by decide),
   by decide⟩

/-- C1: a 'ton' session with positive poll interval, nonnegative budget and no
cancellation terminates with True exactly when some poll cycle whose elapsed
time `k * checkTime` is at most `timeInterval` (inclusive bound, so the cycle
at elapsed = timeInterval still runs) fetches a transaction matching the
amount/memo criteria, and terminates with False exactly otherwise. -/
theorem monitorTransactions_true_iff_match_within_budget
    (pages : Nat → List TxRecord) (amount : String) (memo : Option String)
    (t c : ℤ) (hc : 0 < c) (ht : 0 ≤ t) :
    (monTerminates "ton" pages (fun _ => false) amount memo t c .retTrue ↔
      ∃ k : Nat, (k : ℤ) * c ≤ t ∧
        (pages k).any (fun trx => matchesTx trx amount memo) = true) ∧
    (monTerminates "ton" pages (fun _ => false) amount memo t c .retFalse ↔
      ¬ ∃ k : Nat, (k : ℤ) * c ≤ t ∧
        (pages k).any (fun trx => matchesTx trx amount memo) = true) := by
  have hfalse : (∀ j : Nat, (j : ℤ) * c ≤ t →
      (pages j).any (fun trx => matchesTx trx amount memo) = false) →
      monRun "ton" pages (fun _ => false) amount memo t c 0 ((t / c).toNat + 2)
        = some (.retFalse, (t / c).toNat + 1, (t / c).toNat + 1) := fun hno =>
    monRun_reaches_false pages amount memo t c hc ht hno ((t / c).toNat + 1) 0 (by omega)
  have htrue : ∀ k : Nat, (k : ℤ) * c ≤ t →
      (pages k).any (fun trx => matchesTx trx amount memo) = true →
      monTerminates "ton" pages (fun _ => false) amount memo t c .retTrue := by
    intro k hk hm
    obtain ⟨n, m, h⟩ := monRun_reaches_true pages amount memo t c hc.le k hm hk k 0 (by omega)
    exact ⟨k + 1, n, m, h⟩
  constructor
  · constructor
    · rintro ⟨fuel, n, m, hrun⟩
      by_contra hno
      push_neg at hno
      have hno' : ∀ j : Nat, (j : ℤ) * c ≤ t →
          (pages j).any (fun trx => matchesTx trx amount memo) = false := by
        intro j hj
        have := hno j hj
        cases h : (pages j).any (fun trx => matchesTx trx amount memo)
        · rfl
        · exact absurd h this
      have := monRun_det "ton" pages (fun _ => false) amount memo t c 0 fuel
        ((t / c).toNat + 2) _ _ hrun (hfalse hno')
      simp at this
    · rintro ⟨k, hk, hm⟩
      exact htrue k hk hm
  · constructor
    · rintro ⟨fuel, n, m, hrun⟩ ⟨k, hk, hm⟩
      obtain ⟨fuel', n', m', hrun'⟩ := htrue k hk hm
      have := monRun_det "ton" pages (fun _ => false) amount memo t c 0 fuel fuel' _ _
        hrun hrun'
      simp at this
    · intro hno
      push_neg at hno
      have hno' : ∀ j : Nat, (j : ℤ) * c ≤ t →
          (pages j).any (fun trx => matchesTx trx amount memo) = false := by
        intro j hj
        have := hno j hj
        cases h : (pages j).any (fun trx => matchesTx trx amount memo)
        · rfl
        · exact absurd h this
      exact ⟨(t / c).toNat + 2, (t / c).toNat + 1, (t / c).toNat + 1, hfalse hno'⟩

/-- Witness for `monitorTransactions_true_iff_match_within_budget`: with
timeBudget 10 and pollInterval 5, a match first appearing on the third poll at
elapsed = 10 yields True (boundary inclusion at elapsed = timeBudget). -/
theorem monitorTransactions_boundary_witness :
    monTerminates "ton" pagesBoundary (fun _ => false) "10" none 10 5 .retTrue :=
  (monitorTransactions_true_iff_match_within_budget pagesBoundary "10" none 10 5
    (by decide) (by decide)).1.mpr ⟨2, by decide, by decide⟩

/-- C2: in a run whose stop signal first reads set at the top of cycle `k`
(no earlier cycle observed it, matched, or ran out of budget), the session
returns False at cycle `k` having fetched and slept exactly `k` times: the
cancelled cycle itself issues no fetch and no sleep, so a cancellation is
observed at the next cycle boundary. -/
theorem monitorTransactions_cancelled_cycle
    (pages : Nat → List TxRecord) (stop : Nat → Bool) (amount : String)
    (memo : Option String) (t c : ℤ) (k : Nat)
    (hc : 0 ≤ c) (hk : (k : ℤ) * c ≤ t) (hstop : stop k = true)
    (hprior : ∀ j, j < k → stop j = false)
    (hnm : ∀ j, j < k → (pages j).any (fun trx => matchesTx trx amount memo) = false) :
    monitorTransactions "ton" pages stop amount memo t c (k + 1)
      = some (.retFalse, k, k) := by
  suffices h : ∀ d k0, k0 + d = k →
      monRun "ton" pages stop amount memo t c k0 (d + 1) = some (.retFalse, d, d) by
    exact h k 0 (by omega)
  intro d
  induction d with
  | zero =>
    intro k0 hk0
    have hkk : k0 = k := by omega
    subst hkk
    rw [monRun_succ, if_pos hk, if_pos hstop]
  | succ d ih =>
    intro k0 hk0
    have hk0k : k0 < k := by omega
    have hcond : (k0 : ℤ) * c ≤ t := by
      have hcast : (k0 : ℤ) ≤ (k : ℤ) := by exact_mod_cast hk0k.le
      exact le_trans (mul_le_mul_of_nonneg_right hcast hc) hk
    have hs : ¬ (stop k0 = true) := by
      rw [hprior k0 hk0k]
      exact Bool.false_ne_true
    have hnm0 : ¬ ((pages k0).any (fun trx => matchesTx trx amount memo) = true) := by
      rw [hnm k0 hk0k]
      exact Bool.false_ne_true
    rw [monRun_succ, if_pos hcond, if_neg hs, if_pos rfl, if_neg hnm0,
      ih (k0 + 1) (by omega)]
    rfl

/-- Witness for `monitorTransactions_cancelled_cycle`: a cancellation arriving
during the first sleep is observed at the top of cycle 1; the run returns
False with one fetch and one sleep, none of them in the cancelled cycle. -/
theorem monitorTransactions_cancelled_cycle_witness :
    monitorTransactions "ton" (fun _ => []) stopAfterFirst "1" none 10 5 2
      = some (.retFalse, 1, 1) :=
  monitorTransactions_cancelled_cycle (fun _ => []) stopAfterFirst "1" none 10 5 1
    (by decide) (by decide) (by decide)
    (fun j hj => by
      have hj0 : j = 0 := by omega
      subst hj0
      decide)
    (fun j _ => rfl)

/-- With positive poll interval the run settles within a fuel of
`(t / c).toNat + 2`, performing at most `(t / c).toNat + 1` fetches. -/
theorem monRun_total (pages : Nat → List TxRecord) (stop : Nat → Bool)
    (amount : String) (memo : Option String) (t c : ℤ) (hc : 0 < c) (ht : 0 ≤ t) :
    ∀ d k, (t / c).toNat + 1 ≤ k + d →
      ∃ r n m, monRun "ton" pages stop amount memo t c k (d + 1) = some (r, n, m)
        ∧ n ≤ d := by
  intro d
  induction d with
  | zero =>
    intro k hk
    have hcond : ¬ ((k : ℤ) * c ≤ t) := by
      rw [cycle_cond_iff t c hc ht]
      omega
    rw [monRun_succ, if_neg hcond]
    exact ⟨.retFalse, 0, 0, rfl, le_refl 0⟩
  | succ d ih =>
    intro k hk
    by_cases hcond : (k : ℤ) * c ≤ t
    · rw [monRun_succ, if_pos hcond]
      by_cases hs : stop k = true
      · rw [if_pos hs]
        exact ⟨.retFalse, 0, 0, rfl, by omega⟩
      · rw [if_neg hs, if_pos rfl]
        by_cases hmk : (pages k).any (fun trx => matchesTx trx amount memo) = true
        · rw [if_pos hmk]
          exact ⟨.retTrue, 1, 0, rfl, by omega⟩
        · rw [if_neg hmk]
          obtain ⟨r, n, m, hrec, hn⟩ := ih (k + 1) (by omega)
          rw [hrec]
          exact ⟨r, n + 1, m + 1, rfl, by omega⟩
    · rw [monRun_succ, if_neg hcond]
      exact ⟨.retFalse, 0, 0, rfl, by omega⟩

/-- C10: for blockchain 'ton' and any source/stop behavior, a positive
checkTime makes the call terminate after at most `⌊timeInterval / checkTime⌋
+ 1` poll cycles (each executed cycle issues exactly one fetch, so the fetch
count bounds the cycles; for a negative budget no cycle runs at all); and the
positivity is necessary: with checkTime zero or negative, pages that never
match, a nonnegative budget and no cancellation, no amount of fuel makes the
loop return, because the elapsed counter never moves past the budget. -/
theorem monitorTransactions_termination_bound_and_necessity :
    (∀ (pages : Nat → List TxRecord) (stop : Nat → Bool) (amount : String)
        (memo : Option String) (t c : ℤ), 0 < c →
      ∃ r n m, monitorTransactions "ton" pages stop amount memo t c ((t / c).toNat + 2)
          = some (r, n, m) ∧ n ≤ (t / c).toNat + 1 ∧ (0 ≤ t → (n : ℤ) ≤ t / c + 1)) ∧
    (∀ (pages : Nat → List TxRecord) (amount : String) (memo : Option String)
        (t c : ℤ), c ≤ 0 → 0 ≤ t →
      (∀ j, (pages j).any (fun trx => matchesTx trx amount memo) = false) →
      ∀ fuel, monitorTransactions "ton" pages (fun _ => false) amount memo t c fuel
        = none) := by
  constructor
  · intro pages stop amount memo t c hc
    by_cases ht : 0 ≤ t
    · obtain ⟨r, n, m, hrun, hn⟩ :=
        monRun_total pages stop amount memo t c hc ht ((t / c).toNat + 1) 0 (by omega)
      refine ⟨r, n, m, hrun, hn, fun _ => ?_⟩
      have h0 : (0 : ℤ) ≤ t / c := Int.ediv_nonneg ht hc.le
      omega
    · have hcond : ¬ (((0 : Nat) : ℤ) * c ≤ t) := by
        simp only [Nat.cast_zero, zero_mul]
        omega
      have hrun : monRun "ton" pages stop amount memo t c 0 ((t / c).toNat + 2)
          = some (.retFalse, 0, 0) := by
        obtain ⟨f, hf⟩ : ∃ f, (t / c).toNat + 2 = f + 1 := ⟨(t / c).toNat + 1, rfl⟩
        rw [hf, monRun_succ, if_neg hcond]
      exact ⟨.retFalse, 0, 0, hrun, by omega, fun h => absurd h ht⟩
  · intro pages amount memo t c hc ht hno fuel
    suffices h : ∀ fuel k, monRun "ton" pages (fun _ => false) amount memo t c k fuel
        = none by
      exact h fuel 0
    intro fuel
    induction fuel with
    | zero => intro k; rfl
    | succ fuel ih =>
      intro k
      have hcond : (k : ℤ) * c ≤ t :=
        le_trans (mul_nonpos_of_nonneg_of_nonpos (Nat.cast_nonneg k) hc) ht
      have hnm : ¬ ((pages k).any (fun trx => matchesTx trx amount memo) = true) := by
        rw [hno k]
        exact Bool.false_ne_true
      rw [monRun_succ, if_pos hcond, if_neg Bool.false_ne_true, if_pos rfl, if_neg hnm,
        ih (k + 1)]
      rfl

/-- Witness for `monitorTransactions_termination_bound_and_necessity`: with
budget 10 and interval 5 the call settles within fuel 4 and at most 3 fetches;
with interval 0 it never settles. -/
theorem monitorTransactions_termination_witness :
    (∃ r n m, monitorTransactions "ton" (fun _ => []) (fun _ => false) "1" none 10 5 4
        = some (r, n, m) ∧ n ≤ 3 ∧ ((0 : ℤ) ≤ 10 → (n : ℤ) ≤ 10 / 5 + 1)) ∧
    monitorTransactions "ton" (fun _ => []) (fun _ => false) "1" none 10 0 50 = none :=
  ⟨monitorTransactions_termination_bound_and_necessity.1 (fun _ => [])
      (fun _ => false) "1" none 10 5 (by decide),
   monitorTransactions_termination_bound_and_necessity.2 (fun _ => [])
      "1" none 10 0 (by decide) (by decide) (fun _ => rfl) 50⟩

/-- C5 (amended): a call with a blockchain other than 'ton' and a nonnegative
timeInterval raises the unsupported-blockchain ValueError in its first loop
iteration, before any transaction fetch or sleep (the stop event reads unset
at cycle 0 because line 320 just cleared it with no suspension point in
between); with a negative timeInterval the loop body never runs and the call
returns False without raising. -/
theorem monitorTransactions_unsupported_raises
    (blockchain : String) (pages : Nat → List TxRecord) (stop : Nat → Bool)
    (amount : String) (memo : Option String) (t c : ℤ) (fuel : Nat)
    (hbc : blockchain ≠ "ton") (ht : 0 ≤ t) (hstop : stop 0 = false) :
    monitorTransactions blockchain pages stop amount memo t c (fuel + 1)
      = some (.raiseUnsupported, 0, 0) := by
  have hcond : ((0 : Nat) : ℤ) * c ≤ t := by
    simpa using ht
  have hs : ¬ (stop 0 = true) := by
    rw [hstop]
    exact Bool.false_ne_true
  rw [monitorTransactions, monRun_succ, if_pos hcond, if_neg hs, if_neg hbc]

/-- C5 counterexample: with `timeInterval = -1` (and blockchain "btc") the
`while i <= timeInterval` guard fails immediately, so the call returns False
and the unsupported-blockchain ValueError is never raised. -/
theorem monitorTransactions_unsupported_negative_interval :
    monitorTransactions "btc" (fun _ => []) (fun _ => false) "1" none (-1) 5 1
      = some (.retFalse, 0, 0) ∧
    ¬ monTerminates "btc" (fun _ => []) (fun _ => false) "1" none (-1) 5
        .raiseUnsupported := by
  refine ⟨by decide, ?_⟩
  rintro ⟨fuel, n, m, h⟩
  have h1 : monitorTransactions "btc" (fun _ => []) (fun _ => false) "1" none (-1) 5 1
      = some (.retFalse, 0, 0) := by decide
  have := monRun_det "btc" (fun _ => []) (fun _ => false) "1" none (-1) 5 0 fuel 1 _ _ h h1
  simp at this

/-- Witness for `monitorTransactions_unsupported_raises`. -/
theorem monitorTransactions_unsupported_raises_witness :
    monitorTransactions "btc" (fun _ => []) (fun _ => false) "1" none 3600 5 1
      = some (.raiseUnsupported, 0, 0) :=
  monitorTransactions_unsupported_raises "btc" (fun _ => []) (fun _ => false) "1" none
    3600 5 0 (by decide) (by decide) rfl

/-- C6: a failed fetch is absorbed into an empty transaction list by
`getTonLastTransactions`, and the poll cycle that received it behaves exactly
like a cycle with no transactions: it sleeps and continues, and the eventual
outcome of the session is whatever the remaining cycles produce (the failure
adds one fetch and one sleep to the counts and is never surfaced; no outcome
of the loop represents a fetch failure). -/
theorem getTon_fetch_failure_resilient
    (fetches : Nat → Except FetchError RawData) (e : FetchError) (k : Nat)
    (stop : Nat → Bool) (amount : String) (memo : Option String) (t c : ℤ) (fuel : Nat)
    (herr : fetches k = .error e) (hcond : (k : ℤ) * c ≤ t) (hstop : stop k = false) :
    getTonLastTransactions (fetches k) = [] ∧
    monRun "ton" (fun j => getTonLastTransactions (fetches j)) stop amount memo t c k
        (fuel + 1)
      = (monRun "ton" (fun j => getTonLastTransactions (fetches j)) stop amount memo t c
          (k + 1) fuel).map (fun r => (r.1, r.2.1 + 1, r.2.2 + 1)) := by
  have hempty : getTonLastTransactions (fetches k) = [] := by
    rw [herr]
    rfl
  have hs : ¬ (stop k = true) := by
    rw [hstop]
    exact Bool.false_ne_true
  have hnm : ¬ (((fun j => getTonLastTransactions (fetches j)) k).any
      (fun trx => matchesTx trx amount memo) = true) := by
    simp only [hempty, List.any_nil]
    exact Bool.false_ne_true
  exact ⟨hempty, by rw [monRun_succ, if_pos hcond, if_neg hs, if_pos rfl, if_neg hnm]⟩

/-- Witness for `getTon_fetch_failure_resilient`. -/
theorem getTon_fetch_failure_resilient_witness :
    getTonLastTransactions (fetchesFail 0) = [] ∧
    monRun "ton" (fun j => getTonLastTransactions (fetchesFail j)) (fun _ => false)
        "1" none 10 5 0 3
      = (monRun "ton" (fun j => getTonLastTransactions (fetchesFail j)) (fun _ => false)
          "1" none 10 5 1 2).map (fun r => (r.1, r.2.1 + 1, r.2.2 + 1)) :=
  getTon_fetch_failure_resilient fetchesFail .clientError 0 (fun _ => false) "1" none
    10 5 2 rfl (by decide) rfl

/-- C7: the match predicate of the monitoring loop is string equality on the
amount conjoined with exact memo equality when a memo is expected (absent
expected memo always passes); it ignores the success flag, and near-miss
amount strings such as "1.0" against "1" do not match. -/
theorem matchesTx_characterization (trx : TxRecord) (amount : String)
    (memo : Option String) :
    (matchesTx trx amount memo = true ↔
      trx.amount = amount ∧ (memo = none ∨ trx.memo = memo)) ∧
    (∀ b : Bool, matchesTx { trx with success := b } amount memo
      = matchesTx trx amount memo) ∧
    matchesTx nearMissTx "1" none = false := by
  refine ⟨?_, fun b => rfl, by decide⟩
  unfold matchesTx
  cases memo with
  | none => simp
  | some m => simp

/-- C8: a `stop_monitoring` call issued before a session starts is erased by
the session's first step: line 320 clears the subject's event, so the registry
state seen by the new session, and hence the whole run, is identical to a run
started with no prior cancellation; the prior stop acts as an identity on the
subsequent session. -/
theorem stop_monitoring_then_start_fresh (reg : Registry) (user : String) :
    (∀ (blockchain : String) (pages : Nat → List TxRecord)
        (ext : Nat → String → Bool) (amount : String) (memo : Option String)
        (t c : ℤ) (fuel : Nat),
      sessionRun (stop_monitoring reg user) user blockchain pages ext amount memo t c fuel
        = sessionRun reg user blockchain pages ext amount memo t c fuel) ∧
    clearEvent (stop_monitoring reg user) user = clearEvent reg user := by
  have hclear : clearEvent (stop_monitoring reg user) user = clearEvent reg user := by
    funext u
    by_cases h : u = user <;> simp [clearEvent, stop_monitoring, h]
  refine ⟨fun blockchain pages ext amount memo t c fuel => ?_, hclear⟩
  unfold sessionRun
  rw [hclear]

/-- C9: `stop_monitoring` for subject `a` leaves every other subject's entry
untouched (in particular an unset entry stays unset), and a session for a
different subject `b` is unaffected by it: if the external stops of a run only
ever target `a`, the run for `b` equals the run with no external stops at
all. -/
theorem stop_monitoring_frame (a b : String) (hab : a ≠ b) (reg : Registry) :
    stop_monitoring reg a b = reg b ∧
    (∀ (ext : Nat → String → Bool) (blockchain : String)
        (pages : Nat → List TxRecord) (amount : String) (memo : Option String)
        (t c : ℤ) (fuel : Nat),
      (∀ k u, u ≠ a → ext k u = false) →
      sessionRun reg b blockchain pages ext amount memo t c fuel
        = sessionRun reg b blockchain pages (fun _ _ => false) amount memo t c fuel) := by
  constructor
  · simp [stop_monitoring, Ne.symm hab]
  · intro ext blockchain pages amount memo t c fuel hext
    have hstop : (fun k => registryDuring (clearEvent reg b) ext k b)
        = fun k => registryDuring (clearEvent reg b) (fun _ _ => false) k b := by
      funext k
      simp [registryDuring, hext k b (Ne.symm hab)]
    unfold sessionRun
    rw [hstop]

/-- Witness for `stop_monitoring_frame`: cancelling "alice" does not touch
"bob"'s entry, and a session for "bob" runs identically whether or not
"alice" is being cancelled during it. -/
theorem stop_monitoring_frame_witness :
    stop_monitoring regAll "alice" "bob" = regAll "bob" ∧
    sessionRun regAll "bob" "ton" (fun _ => []) (fun _ u => u == "alice") "1" none
        10 5 3
      = sessionRun regAll "bob" "ton" (fun _ => []) (fun _ _ => false) "1" none
        10 5 3 := by
  have h := stop_monitoring_frame "alice" "bob" (by decide) regAll
  exact ⟨h.1, h.2 (fun _ u => u == "alice") "ton" (fun _ => []) "1" none 10 5 3
    (fun _ u hu => beq_eq_false_iff_ne.mpr hu)⟩

theorem getTon_ok (d : RawData) :
    getTonLastTransactions (.ok d)
      = (match processTransactions (buildBook d.address_book) d.transactions with
        | .ok l => l
        | .error _ => []) := rfl

/-- A record whose processing raises a `KeyError` inside the per-record
handler leaves the rest of the page's processing unchanged. -/
theorem processTransactions_skip (book : List (String × String)) (tx : RawTx)
    (h : processOneTx book tx = .ok none) :
    ∀ pre post, processTransactions book (pre ++ tx :: post)
      = processTransactions book (pre ++ post) := by
  intro pre
  induction pre with
  | nil =>
    intro post
    simp only [List.nil_append]
    rw [processTransactions, h]
  | cons p ps ih =>
    intro post
    simp only [List.cons_append]
    rw [processTransactions, processTransactions, ih post]

/-- C4 (amended): a record missing `hash`, `now`, `description` or
`compute_ph` — fields read inside the inner `try` — is skipped individually
(its `KeyError` is caught and logged) and the rest of the page is parsed as if
the record were absent; this requires `in_msg` and `message_content` to be
present, since those are read before the `try` and their absence aborts the
whole page instead. -/
theorem getTon_skips_inner_keyerror_records (ab : List (String × Option String))
    (pre post : List RawTx) (tx : RawTx)
    (him : ∃ im, tx.in_msg = some im ∧ im.message_content ≠ none)
    (hmal : tx.hash = none ∨ tx.now = none ∨ tx.description = none ∨
      (∃ d, tx.description = some d ∧ d.compute_ph = none)) :
    getTonLastTransactions (.ok ⟨ab, pre ++ tx :: post⟩)
      = getTonLastTransactions (.ok ⟨ab, pre ++ post⟩) := by
  have hskip : processOneTx (buildBook ab) tx = .ok none := by
    obtain ⟨im, him1, him2⟩ := him
    obtain ⟨mc, hmc⟩ : ∃ mc, im.message_content = some mc := by
      cases h : im.message_content with
      | none => exact absurd h him2
      | some mc => exact ⟨mc, rfl⟩
    unfold processOneTx
    simp only [him1, hmc]
    rcases hmal with h | h | h | ⟨d, hd, hcp⟩
    · simp only [h]
    · simp only [h]
      cases tx.hash <;> rfl
    · simp only [h]
      cases tx.hash <;> cases tx.now <;> rfl
    · simp only [hd, hcp]
      cases tx.hash <;> cases tx.now <;> rfl
  rw [getTon_ok, getTon_ok]
  rw [processTransactions_skip (buildBook ab) tx hskip pre post]

/-- Witness for `getTon_skips_inner_keyerror_records`: a record with a missing
hash is dropped alone; the well-formed record of the same page is parsed. -/
theorem getTon_skips_inner_keyerror_records_witness :
    getTonLastTransactions (.ok ⟨[], [goodTx, missingHashTx]⟩)
      = getTonLastTransactions (.ok ⟨[], [goodTx]⟩) ∧
    getTonLastTransactions (.ok ⟨[], [goodTx, missingHashTx]⟩) = [goodRecord] :=
  ⟨getTon_skips_inner_keyerror_records [] [goodTx] [] missingHashTx
      ⟨⟨some "s", some 1000000000, some ⟨none⟩⟩, rfl, by decide⟩ (Or.inl rfl),
   by decide⟩

/-- C4 counterexample: a single record with a missing `in_msg` raises its
`KeyError` outside the per-record handler (source lines 241-244 run before the
inner `try`), the outer handler catches it and returns the empty list: the
whole page is dropped, including its well-formed record, which the same page
without the malformed record does deliver. -/
theorem getTon_drops_page_on_missing_in_msg :
    getTonLastTransactions (.ok ⟨[], [goodTx, missingInMsgTx]⟩) = [] ∧
    getTonLastTransactions (.ok ⟨[], [goodTx]⟩) = [goodRecord] ∧
    ([] : List TxRecord) ≠ [goodRecord] :=
  ⟨by decide, by decide, by decide⟩
